import Mathlib

/-!
# Token bucket limiter (`limiter.go`, `options.go`)

Shallow embedding of the `Limiter` type and its methods.

Modelling conventions:
* `float64` quantities (`rate`, `cap`, `val`, amounts) are exact rationals `ℚ`.
  Rounding, infinities and NaN are outside the model, so the results below are kept to
  statements that do not depend on a sum, difference, product or quotient being exact:
  comparisons, truncation at the capacity, order (`≤`) facts that a monotone rounding
  preserves, equalities between states that run the same arithmetic, and evaluations at
  inputs where every intermediate number is exactly representable.
* `time.Time` is an integer count of nanoseconds on one time line, `time.Duration`
  an integer count of nanoseconds; `now.Sub(last)` is the difference, replaced by
  `minDuration` or `maxDuration` when it does not fit 64 bits, as in package `time`.
* The conversion `time.Duration(x)` discards the fractional part; its result for an `x`
  outside the 64-bit range depends on the platform and is outside the model.
* A method with a pointer receiver returns its result together with the new state.
-/

namespace Rate

/-- A point in time: nanoseconds on a fixed time line (`time.Time`). -/
abbrev Time := Int

/-- A span of time in nanoseconds (`time.Duration`). -/
abbrev Duration := Int

/-- The constant `time.Second`, in nanoseconds. -/
def Second : Duration := 1000000000

/-- The method `Duration.Seconds`: the duration as a number of seconds. -/
def Duration.Seconds (d : Duration) : ℚ := (d : ℚ) / 1000000000

/-- The constant `minDuration` of package `time`: `-1 << 63`. -/
def minDuration : Duration := -9223372036854775808

/-- The constant `maxDuration` of package `time`: `1<<63 - 1`. -/
def maxDuration : Duration := 9223372036854775807

/-- The method `Time.Sub`: the duration `t - u`; when it is out of the range of a
`Duration`, the smallest or the largest duration. -/
def Time.Sub (t u : Time) : Duration :=
  if t - u < minDuration then minDuration
  else if t - u > maxDuration then maxDuration
  else t - u

/-- The method `Time.Add`: the time `t + d`. -/
def Time.Add (t : Time) (d : Duration) : Time := t + d

/-- Conversion `time.Duration(x)` of a number to an integer: the fractional part is
discarded (rounding toward zero). -/
def toDuration (x : ℚ) : Duration := Int.tdiv x.num (x.den : Int)

/-- The struct `Limiter`. The capacity field is called `cap` in the source. -/
structure Limiter where
  rate : ℚ
  cap : ℚ
  last : Time
  val : ℚ
  deriving DecidableEq, Repr

/-- The method `advance`: accumulate tokens up to time `now`, truncate at capacity;
when time goes backwards the state is not changed. -/
def Limiter.advance (l : Limiter) (now : Time) : Limiter :=
  let secs := Duration.Seconds (Time.Sub now l.last)
  if secs < 0 then l
  else
    let l1 : Limiter := { l with val := l.val + l.rate * secs, last := now }
    if l1.val > l1.cap then { l1 with val := l1.cap } else l1

/-- The method `Update`: advance, then set the new rate and capacity. -/
def Limiter.Update (l : Limiter) (now : Time) (rate cap : ℚ) : Limiter :=
  let l1 := l.advance now
  { l1 with rate := rate, cap := cap }

/-- The method `Have`: advance, then report whether `v` tokens are there. -/
def Limiter.Have (l : Limiter) (now : Time) (v : ℚ) : Bool × Limiter :=
  let l1 := l.advance now
  (decide (v ≤ l1.val), l1)

/-- The method `Take`: advance, then take `v` tokens if there are enough of them. -/
def Limiter.Take (l : Limiter) (now : Time) (v : ℚ) : Bool × Limiter :=
  let l1 := l.advance now
  if v > l1.val then (false, l1)
  else (true, { l1 with val := l1.val - v })

/-- The method `Borrow`: advance, take `v` tokens unconditionally, return the wait. -/
def Limiter.Borrow (l : Limiter) (now : Time) (v : ℚ) : Duration × Limiter :=
  let l1 := l.advance now
  let l2 : Limiter := { l1 with val := l1.val - v }
  if l2.val ≥ 0 then (0, l2)
  else (toDuration (-l2.val / l2.rate * (Second : ℚ)), l2)

/-- The method `Return`: add `v` tokens back, then advance. -/
def Limiter.Return (l : Limiter) (now : Time) (v : ℚ) : Limiter :=
  let l1 : Limiter := { l with val := l.val + v }
  l1.advance now

/-- The method `Rate`. -/
def Limiter.Rate (l : Limiter) : ℚ := l.rate

/-- The method `Capacity`. -/
def Limiter.Capacity (l : Limiter) : ℚ := l.cap

/-- The method `Value`: advance, then return the current value. -/
def Limiter.Value (l : Limiter) (now : Time) : ℚ × Limiter :=
  let l1 := l.advance now
  (l1.val, l1)

/-- The method `Set`: overwrite value and time, return the previous value. -/
def Limiter.Set (l : Limiter) (now : Time) (v : ℚ) : ℚ × Limiter :=
  let x := l.val
  (x, { l with val := v, last := now })

/-- The type `OptionFunc` (the only implementation of interface `Option`). -/
abbrev OptionFunc := Limiter → Time → Limiter

/-- The method `OptionFunc.apply`. -/
def OptionFunc.apply (f : OptionFunc) (l : Limiter) (now : Time) : Limiter := f l now

/-- The option `WithValue`: set the initial value. -/
def WithValue (v : ℚ) : OptionFunc := fun l now => (l.Set now v).2

/-- The constructor `NewLimiter`: a full bucket, then the options in order. -/
def NewLimiter (now : Time) (rate cap : ℚ) (opts : List OptionFunc) : Limiter :=
  let l : Limiter := { rate := rate, cap := cap, val := cap, last := now }
  opts.foldl (fun l o => o.apply l now) l

/-! ## Basic facts about the model -/

theorem sub_neg_iff (t u : Time) : Time.Sub t u < 0 ↔ t < u := by
  unfold Time.Sub minDuration maxDuration
  have e : t - u < 0 ↔ t < u := sub_neg
  rw [← e]
  split_ifs with h1 h2
  · constructor
    · intro _; linarith
    · intro _; norm_num
  · constructor
    · intro h; norm_num at h
    · intro h; linarith
  · exact Iff.rfl

theorem sub_self_eq (t : Time) : Time.Sub t t = 0 := by
  unfold Time.Sub minDuration maxDuration
  simp

/-- The duration `Time.Sub t u` grows with `t`. -/
theorem sub_mono (u : Time) {t1 t2 : Time} (h : t1 ≤ t2) : Time.Sub t1 u ≤ Time.Sub t2 u := by
  have e : t1 - u ≤ t2 - u := sub_le_sub_right h u
  unfold Time.Sub minDuration maxDuration
  split_ifs <;> linarith

theorem seconds_neg_iff (now last : Time) :
    Duration.Seconds (Time.Sub now last) < 0 ↔ now < last := by
  rw [← sub_neg_iff now last]
  unfold Duration.Seconds
  rw [div_neg_iff]
  constructor
  · rintro (⟨_, h⟩ | ⟨h, _⟩)
    · norm_num at h
    · exact_mod_cast h
  · intro h
    right
    refine ⟨?_, by norm_num⟩
    exact_mod_cast h

theorem seconds_self (t : Time) : Duration.Seconds (Time.Sub t t) = 0 := by
  rw [sub_self_eq]
  simp [Duration.Seconds]

theorem seconds_nonneg {a b : Time} (h : a ≤ b) : 0 ≤ Duration.Seconds (Time.Sub b a) :=
  not_lt.mp (fun hlt => absurd ((seconds_neg_iff b a).mp hlt) (not_lt.mpr h))

/-- The elapsed seconds since `u` grow with the time. -/
theorem seconds_mono (u : Time) {t1 t2 : Time} (h : t1 ≤ t2) :
    Duration.Seconds (Time.Sub t1 u) ≤ Duration.Seconds (Time.Sub t2 u) := by
  unfold Duration.Seconds
  have : ((Time.Sub t1 u : Int) : ℚ) ≤ ((Time.Sub t2 u : Int) : ℚ) := by
    exact_mod_cast sub_mono u h
  exact div_le_div_of_nonneg_right this (by norm_num)

/-- Backward time: `advance` returns the state as it is. -/
theorem advance_of_lt (l : Limiter) (now : Time) (h : now < l.last) :
    l.advance now = l := by
  unfold Limiter.advance
  simp only [(seconds_neg_iff now l.last).mpr h, if_true]

/-- Forward time: `advance` accrues and truncates at capacity. -/
theorem advance_of_le (l : Limiter) (now : Time) (h : l.last ≤ now) :
    l.advance now =
      { l with last := now
               val := min l.cap (l.val + l.rate * Duration.Seconds (Time.Sub now l.last)) } := by
  have hs : ¬ Duration.Seconds (Time.Sub now l.last) < 0 := by
    rw [seconds_neg_iff]; exact not_lt.mpr h
  unfold Limiter.advance
  simp only [hs, if_false]
  by_cases hc : l.val + l.rate * Duration.Seconds (Time.Sub now l.last) > l.cap
  · simp only [hc, if_true]
    rw [min_eq_left (le_of_lt hc)]
  · simp only [hc, if_false]
    rw [min_eq_right (not_lt.mp hc)]

theorem advance_rate (l : Limiter) (now : Time) : (l.advance now).rate = l.rate := by
  rcases lt_or_le now l.last with h | h
  · rw [advance_of_lt l now h]
  · rw [advance_of_le l now h]

theorem advance_cap (l : Limiter) (now : Time) : (l.advance now).cap = l.cap := by
  rcases lt_or_le now l.last with h | h
  · rw [advance_of_lt l now h]
  · rw [advance_of_le l now h]

theorem advance_last (l : Limiter) (now : Time) : (l.advance now).last = max l.last now := by
  rcases lt_or_le now l.last with h | h
  · rw [advance_of_lt l now h, max_eq_left (le_of_lt h)]
  · rw [advance_of_le l now h, max_eq_right h]

/-- Advancing twice to the same time is advancing once. -/
theorem advance_advance (l : Limiter) (now : Time) :
    (l.advance now).advance now = l.advance now := by
  rcases lt_or_le now l.last with h | h
  · rw [advance_of_lt l now h, advance_of_lt l now h]
  · rw [advance_of_le l now h, advance_of_le _ now (le_refl _)]
    simp [seconds_self]

/-! ## Evaluation and sign of the value -/

/-- Evaluation of `advance` on an explicit state. -/
theorem advance_mk (r c : ℚ) (t : Time) (v : ℚ) (now : Time) :
    (Limiter.mk r c t v).advance now =
      if now < t then Limiter.mk r c t v
      else Limiter.mk r c now (min c (v + r * Duration.Seconds (Time.Sub now t))) := by
  by_cases h : now < t
  · rw [if_pos h]; exact advance_of_lt _ now h
  · rw [if_neg h, advance_of_le _ now (not_lt.mp h)]

/-- After `advance` to a time not earlier than `last` the value is at most the capacity. -/
theorem advance_val_le_cap (l : Limiter) (now : Time) (h : l.last ≤ now) :
    (l.advance now).val ≤ l.cap := by
  rw [advance_of_le l now h]
  exact min_le_left _ _

/-- With `rate ≥ 0`, `cap ≥ 0` and a value `≥ 0`, the value after `advance` is `≥ 0`. -/
theorem advance_val_nonneg (l : Limiter) (now : Time) (hr : 0 ≤ l.rate) (hc : 0 ≤ l.cap)
    (hv : 0 ≤ l.val) : 0 ≤ (l.advance now).val := by
  rcases lt_or_le now l.last with h | h
  · rw [advance_of_lt l now h]; exact hv
  · rw [advance_of_le l now h]
    exact le_min hc (add_nonneg hv (mul_nonneg hr (seconds_nonneg h)))

/-- Advancing to `last` itself changes nothing when the value is at most the capacity. -/
theorem advance_last_self (l : Limiter) (h : l.val ≤ l.cap) : l.advance l.last = l := by
  rw [advance_of_le l l.last (le_refl _)]
  simp only [seconds_self, mul_zero, add_zero, min_eq_right h]

theorem toDuration_of_nonneg {x : ℚ} (h : 0 ≤ x) : toDuration x = ⌊x⌋ := by
  unfold toDuration
  rw [Rat.floor_def]
  exact Int.tdiv_eq_ediv (Rat.num_nonneg.mpr h) (Int.ofNat_nonneg _)

theorem toDuration_intCast (n : Int) : toDuration (n : ℚ) = n := by
  simp [toDuration]

theorem toDuration_ofNat (n : ℕ) [n.AtLeastTwo] :
    toDuration (OfNat.ofNat n : ℚ) = (OfNat.ofNat n : Int) := by
  have h : (OfNat.ofNat n : ℚ) = ((OfNat.ofNat n : Int) : ℚ) := by simp
  rw [h, toDuration_intCast]

theorem toDuration_eq_of_bounds {x : ℚ} {n : Int} (h0 : 0 ≤ x) (h1 : (n : ℚ) ≤ x)
    (h2 : x < (n : ℚ) + 1) : toDuration x = n := by
  rw [toDuration_of_nonneg h0, Int.floor_eq_iff]
  exact ⟨h1, h2⟩

/-! ## The claims -/

/-- C2 as stated fails: a full bucket of capacity 5, `Take` of the amount `-1`
returns true, but the following `Value` is truncated to the capacity 5, not 6. -/
theorem take_success_counterexample :
    ¬ (∀ (l : Limiter) (now : Time) (a : ℚ), a ≤ (l.Value now).1 →
        (l.Take now a).1 = true ∧
          ((l.Take now a).2.Value now).1 = (l.Value now).1 - a) := by
  intro h
  have h1 := (h (NewLimiter 0 2 5 []) 0 (-1)
    (by norm_num [NewLimiter, Limiter.Value, advance_mk, seconds_self, Duration.Seconds, Time.Sub,
    minDuration, maxDuration])).2
  norm_num [NewLimiter, Limiter.Value, Limiter.Take, advance_mk, seconds_self, Duration.Seconds, Time.Sub,
    minDuration, maxDuration] at h1

/-- C2, amended: when `amount ≤ Value(now)`, `Take(now, amount)` returns true (whether it
is called on the state before or after that `Value(now)`, with the same outcome) and
stores the result of its subtraction, a value `≥ 0`; an immediately following `Value(now)`
returns that stored value, except that it returns the capacity when `now` is not earlier
than `last` and the stored value is above the capacity. For `amount ≥ 0` the stored value
is at most the earlier `Value(now)` and the following `Value(now)` returns it as it is;
for `amount ≤ 0` it is at least the earlier `Value(now)`. -/
theorem take_success (l : Limiter) (now : Time) (a : ℚ) (h : a ≤ (l.Value now).1) :
    (l.Take now a).1 = true ∧
      (l.Value now).2.Take now a = l.Take now a ∧
      0 ≤ (l.Take now a).2.val ∧
      ((l.Take now a).2.Value now).1 =
        (if l.last ≤ now ∧ l.Capacity < (l.Take now a).2.val then l.Capacity
         else (l.Take now a).2.val) ∧
      (0 ≤ a → (l.Take now a).2.val ≤ (l.Value now).1 ∧
        ((l.Take now a).2.Value now).1 = (l.Take now a).2.val) ∧
      (a ≤ 0 → (l.Value now).1 ≤ (l.Take now a).2.val) := by
  have hle : a ≤ (l.advance now).val := h
  have hng : ¬ a > (l.advance now).val := not_lt.mpr h
  have hT : l.Take now a = (true, { l.advance now with val := (l.advance now).val - a }) := by
    simp only [Limiter.Take, hng, if_false]
  have hS : (l.Take now a).2.val = (l.advance now).val - a := by rw [hT]
  have hV : ((l.Take now a).2.Value now).1 =
      (if l.last ≤ now ∧ l.Capacity < (l.Take now a).2.val then l.Capacity
       else (l.Take now a).2.val) := by
    rw [hT]
    simp only [Limiter.Value, Limiter.Capacity]
    rcases lt_or_le now l.last with hlt | hge
    · have hn : ¬ (l.last ≤ now ∧ l.cap < (l.advance now).val - a) :=
        fun hh => absurd hh.1 (not_le.mpr hlt)
      rw [if_neg hn, advance_of_lt l now hlt,
        advance_of_lt _ now (show now < ({ l with val := l.val - a } : Limiter).last from hlt)]
    · have hlast : (l.advance now).last = now := by rw [advance_last, max_eq_right hge]
      rw [advance_of_le { l.advance now with val := (l.advance now).val - a } now
        (le_of_eq hlast)]
      simp only [hlast, seconds_self, mul_zero, add_zero, advance_cap]
      by_cases hc : l.cap < (l.advance now).val - a
      · rw [if_pos ⟨hge, hc⟩, min_eq_left (le_of_lt hc)]
      · rw [if_neg (fun hh => hc hh.2), min_eq_right (not_lt.mp hc)]
  refine ⟨by rw [hT], ?_, ?_, hV, ?_, ?_⟩
  · simp only [Limiter.Take, Limiter.Value, advance_advance]
  · rw [hS]; linarith
  · intro ha
    refine ⟨?_, ?_⟩
    · rw [hS]
      show (l.advance now).val - a ≤ (l.advance now).val
      linarith
    · rw [hV]
      apply if_neg
      rintro ⟨hge, hc⟩
      have := advance_val_le_cap l now hge
      rw [hS] at hc
      simp only [Limiter.Capacity] at hc
      linarith
  · intro ha
    rw [hS]
    show (l.advance now).val ≤ (l.advance now).val - a
    linarith

/-- C2 (amended) at the first step of `TestLimiter`: rate 2, capacity 5, full, take 4. -/
theorem take_success_witness :
    ((NewLimiter 0 2 5 []).Take 0 4).1 = true ∧
      ((NewLimiter 0 2 5 []).Value 0).2.Take 0 4 = (NewLimiter 0 2 5 []).Take 0 4 ∧
      0 ≤ ((NewLimiter 0 2 5 []).Take 0 4).2.val ∧
      (((NewLimiter 0 2 5 []).Take 0 4).2.Value 0).1 =
        (if (NewLimiter 0 2 5 []).last ≤ 0 ∧
            (NewLimiter 0 2 5 []).Capacity < ((NewLimiter 0 2 5 []).Take 0 4).2.val
          then (NewLimiter 0 2 5 []).Capacity
          else ((NewLimiter 0 2 5 []).Take 0 4).2.val) ∧
      ((0 : ℚ) ≤ 4 →
        ((NewLimiter 0 2 5 []).Take 0 4).2.val ≤ ((NewLimiter 0 2 5 []).Value 0).1 ∧
        (((NewLimiter 0 2 5 []).Take 0 4).2.Value 0).1
          = ((NewLimiter 0 2 5 []).Take 0 4).2.val) ∧
      ((4 : ℚ) ≤ 0 →
        ((NewLimiter 0 2 5 []).Value 0).1 ≤ ((NewLimiter 0 2 5 []).Take 0 4).2.val) :=
  take_success (NewLimiter 0 2 5 []) 0 4
    (by norm_num [NewLimiter, Limiter.Value, advance_mk, seconds_self])

/-- The first step of `TestLimiter`: a full bucket of 5, `Take` of 4 returns true and the
following `Value` is 1. -/
theorem take_success_example (now : Time) :
    ((NewLimiter now 2 5 []).Take now 4).1 = true ∧
      (((NewLimiter now 2 5 []).Take now 4).2.Value now).1 = 1 := by
  norm_num [NewLimiter, Limiter.Take, Limiter.Value, advance_mk, seconds_self]

/-- C3: when `amount > Value(now)`, `Take(now, amount)` returns false and leaves the
limiter exactly in the state `advance(now)` produces (the state `Value(now)` leaves), so
that an immediately following `Value(now)` returns the same number as before the call. -/
theorem take_failure (l : Limiter) (now : Time) (a : ℚ) (h : (l.Value now).1 < a) :
    l.Take now a = (false, l.advance now) ∧
      (l.Take now a).2 = (l.Value now).2 ∧
      ((l.Take now a).2.Value now).1 = (l.Value now).1 := by
  have hgt : a > (l.advance now).val := h
  have hT : l.Take now a = (false, l.advance now) := by
    simp only [Limiter.Take, hgt, if_true]
  refine ⟨hT, by rw [hT]; rfl, ?_⟩
  rw [hT]
  simp only [Limiter.Value, advance_advance]

/-- C3 at the third step of `TestLimiter`: an empty bucket of rate 2 holds 2 tokens one
second later, and `Take` of 3 fails. -/
theorem take_failure_witness :
    (Limiter.mk 2 5 1000000000 0).Take 2000000000 3
        = (false, (Limiter.mk 2 5 1000000000 0).advance 2000000000) ∧
      ((Limiter.mk 2 5 1000000000 0).Take 2000000000 3).2
        = ((Limiter.mk 2 5 1000000000 0).Value 2000000000).2 ∧
      (((Limiter.mk 2 5 1000000000 0).Take 2000000000 3).2.Value 2000000000).1
        = ((Limiter.mk 2 5 1000000000 0).Value 2000000000).1 :=
  take_failure (Limiter.mk 2 5 1000000000 0) 2000000000 3
    (by norm_num [Limiter.Value, advance_mk, seconds_self, Duration.Seconds, Time.Sub,
    minDuration, maxDuration])

/-- C4 as stated fails: with `last` at 10 s, `Value` at 0 s and then at 5 s both return
the stored value 0, not `min(5, 0 + 2 * 5)`. -/
theorem accrual_counterexample :
    ¬ (∀ (l : Limiter) (now1 now2 : Time), now1 < now2 →
        ((l.Value now1).2.Value now2).1 =
          min l.Capacity
            ((l.Value now1).1 + l.Rate * Duration.Seconds (Time.Sub now2 now1))) := by
  intro h
  have h1 := h (Limiter.mk 2 5 10000000000 0) 0 5000000000 (by norm_num)
  norm_num [Limiter.Value, Limiter.Capacity, Limiter.Rate, advance_mk, seconds_self, Duration.Seconds, Time.Sub,
    minDuration, maxDuration] at h1

/-- C4, amended: for timestamps `last ≤ now1 < now2`, with no other operation between
the two calls, `Value(now2)` is at most `Capacity()`; it is not below `Value(now1)` when
`Rate() ≥ 0`, and not above `Value(now1)` when `Rate() ≤ 0`. -/
theorem accrual (l : Limiter) (now1 now2 : Time) (h1 : l.last ≤ now1) (h2 : now1 < now2) :
    ((l.Value now1).2.Value now2).1 ≤ l.Capacity ∧
      (0 ≤ l.Rate → (l.Value now1).1 ≤ ((l.Value now1).2.Value now2).1) ∧
      (l.Rate ≤ 0 → ((l.Value now1).2.Value now2).1 ≤ (l.Value now1).1) := by
  have hlast : (l.advance now1).last = now1 := by rw [advance_last, max_eq_right h1]
  have hle : (l.advance now1).last ≤ now2 := by rw [hlast]; exact le_of_lt h2
  have hs : 0 ≤ Duration.Seconds (Time.Sub now2 (l.advance now1).last) := seconds_nonneg hle
  have hcap := advance_val_le_cap l now1 h1
  have hV : ((l.Value now1).2.Value now2).1 =
      min l.cap ((l.advance now1).val
        + l.rate * Duration.Seconds (Time.Sub now2 (l.advance now1).last)) := by
    simp only [Limiter.Value]
    rw [advance_of_le (l.advance now1) now2 hle]
    simp only [advance_cap, advance_rate]
  rw [hV]
  simp only [Limiter.Value, Limiter.Capacity, Limiter.Rate]
  refine ⟨min_le_left _ _, ?_, ?_⟩
  · intro hr
    have := mul_nonneg hr hs
    exact le_min hcap (by linarith)
  · intro hr
    have := mul_nonpos_of_nonpos_of_nonneg hr hs
    exact le_trans (min_le_right _ _) (by linarith)

/-- C4 (amended) at the step of `TestLimiter` from 2 s to 6 s: value 2, rate 2, capacity 5. -/
theorem accrual_witness :
    (((Limiter.mk 2 5 1000000000 0).Value 2000000000).2.Value 6000000000).1
        ≤ (Limiter.mk 2 5 1000000000 0).Capacity ∧
      (0 ≤ (Limiter.mk 2 5 1000000000 0).Rate →
        ((Limiter.mk 2 5 1000000000 0).Value 2000000000).1
          ≤ (((Limiter.mk 2 5 1000000000 0).Value 2000000000).2.Value 6000000000).1) ∧
      ((Limiter.mk 2 5 1000000000 0).Rate ≤ 0 →
        (((Limiter.mk 2 5 1000000000 0).Value 2000000000).2.Value 6000000000).1
          ≤ ((Limiter.mk 2 5 1000000000 0).Value 2000000000).1) :=
  accrual (Limiter.mk 2 5 1000000000 0) 2000000000 6000000000 (by decide) (by decide)

/-- The run of `TestLimiter` from 2 s to 6 s ends at the capacity 5. -/
theorem accrual_example :
    (((Limiter.mk 2 5 1000000000 0).Value 2000000000).2.Value 6000000000).1 = 5 := by
  norm_num [Limiter.Value, advance_mk, seconds_self, Duration.Seconds, Time.Sub,
    minDuration, maxDuration]

/-- The run of `TestLimiterBorrow`: rate 2, capacity 6, full; three `Borrow(now, 4)`
return 0 s, 1 s, 3 s and leave the values 2, -2, -6. -/
theorem borrow_scenario (now : Time) :
    (NewLimiter now 2 6 []).Borrow now 4 = (0, Limiter.mk 2 6 now 2) ∧
      (Limiter.mk 2 6 now 2).Borrow now 4 = (1 * Second, Limiter.mk 2 6 now (-2)) ∧
      (Limiter.mk 2 6 now (-2)).Borrow now 4 = (3 * Second, Limiter.mk 2 6 now (-6)) := by
  norm_num [NewLimiter, Limiter.Borrow, advance_mk, seconds_self, Second]
  exact ⟨toDuration_ofNat 1000000000, toDuration_ofNat 3000000000⟩

/-- C6 at the failing input: rate 3, capacity 6, value 0 at time 0. `Borrow(0, 1)` leaves
the value -1 and returns 333333333 ns, the whole part of a third of a second; at that time
the value is still negative, `-1/1000000000`. -/
theorem borrow_wait_too_short :
    (NewLimiter 0 3 6 [WithValue 0]).Borrow 0 1 = (333333333, Limiter.mk 3 6 0 (-1)) ∧
      ((Limiter.mk 3 6 0 (-1)).Value (Time.Add 0 333333333)).1 = -1 / 1000000000 ∧
      ((((NewLimiter 0 3 6 [WithValue 0]).Borrow 0 1).2.Value
        (Time.Add 0 ((NewLimiter 0 3 6 [WithValue 0]).Borrow 0 1).1)).1 < 0) := by
  have hB : (NewLimiter 0 3 6 [WithValue 0]).Borrow 0 1
      = (333333333, Limiter.mk 3 6 0 (-1)) := by
    have hd : toDuration ((1000000000 : ℚ) / 3) = 333333333 :=
      toDuration_eq_of_bounds (by norm_num) (by norm_num) (by norm_num)
    norm_num [NewLimiter, WithValue, OptionFunc.apply, Limiter.Set, Limiter.Borrow,
      advance_mk, seconds_self, Second]
    rw [← hd]
  have hV : ((Limiter.mk 3 6 0 (-1)).Value (Time.Add 0 333333333)).1 = -1 / 1000000000 := by
    norm_num [Limiter.Value, Time.Add, advance_mk, seconds_self, Duration.Seconds, Time.Sub,
    minDuration, maxDuration]
  refine ⟨hB, hV, ?_⟩
  rw [hB]
  show ((Limiter.mk 3 6 0 (-1)).Value (Time.Add 0 333333333)).1 < 0
  rw [hV]
  norm_num

/-- C7: for a timestamp `now` strictly earlier than `last`, `Value(now)` returns the
stored value, `Have(now, a)` returns whether `a ≤` the stored value, and both leave the
whole state (value, last, rate, capacity) as it was. -/
theorem backward_time_noop (l : Limiter) (now : Time) (a : ℚ) (h : now < l.last) :
    l.Value now = (l.val, l) ∧ l.Have now a = (decide (a ≤ l.val), l) := by
  simp only [Limiter.Value, Limiter.Have, advance_of_lt l now h, and_self]

/-- C7 at the backward step of `TestLimiter`: last at 2 s, value 2, asked at 1.5 s. -/
theorem backward_time_noop_witness :
    (Limiter.mk 2 5 2000000000 2).Value 1500000000 = (2, Limiter.mk 2 5 2000000000 2) ∧
      (Limiter.mk 2 5 2000000000 2).Have 1500000000 3
        = (decide ((3 : ℚ) ≤ 2), Limiter.mk 2 5 2000000000 2) :=
  backward_time_noop (Limiter.mk 2 5 2000000000 2) 1500000000 3 (by decide)

/-- C8 as stated fails: with the value 7 above the capacity 5 and `last` at 10 ns,
`Value(5)` returns 7 while `Value(10)` truncates and returns 5. -/
theorem backward_as_zero_counterexample :
    ¬ (∀ (l : Limiter) (now' : Time) (a : ℚ), now' < l.last →
        ((l.Value now').1 = (l.Value l.last).1 ∧
          (l.Value now').2.val = (l.Value l.last).2.val) ∧
        ((l.Have now' a).1 = (l.Have l.last a).1 ∧
          (l.Have now' a).2.val = (l.Have l.last a).2.val) ∧
        ((l.Take now' a).1 = (l.Take l.last a).1 ∧
          (l.Take now' a).2.val = (l.Take l.last a).2.val) ∧
        ((l.Borrow now' a).1 = (l.Borrow l.last a).1 ∧
          (l.Borrow now' a).2.val = (l.Borrow l.last a).2.val) ∧
        (l.Return now' a).val = (l.Return l.last a).val) := by
  intro h
  have h1 := (h (Limiter.mk 2 5 10 7) 5 1 (by decide)).1.1
  norm_num [Limiter.Value, advance_mk, seconds_self, Duration.Seconds, Time.Sub,
    minDuration, maxDuration] at h1

/-- C8, amended: for a timestamp `now'` strictly earlier than `last`, each of `Value`,
`Have`, `Take` and `Borrow` called with `now'` returns the same result and leaves the same
state as called with `last`, when the stored value is at most the capacity; and so does
`Return(now', v)`, when the stored value plus `v` is at most the capacity. -/
theorem backward_as_zero (l : Limiter) (now' : Time) (a : ℚ) (h : now' < l.last) :
    (l.val ≤ l.cap →
      l.Value now' = l.Value l.last ∧ l.Have now' a = l.Have l.last a ∧
      l.Take now' a = l.Take l.last a ∧ l.Borrow now' a = l.Borrow l.last a) ∧
    (l.val + a ≤ l.cap → l.Return now' a = l.Return l.last a) := by
  constructor
  · intro hv
    simp only [Limiter.Value, Limiter.Have, Limiter.Take, Limiter.Borrow,
      advance_of_lt l now' h, advance_last_self l hv, and_self]
  · intro hv
    simp only [Limiter.Return]
    rw [advance_of_lt _ now' (show now' < ({ l with val := l.val + a } : Limiter).last from h)]
    exact (advance_last_self { l with val := l.val + a } hv).symm

/-- C8 (amended) at the backward step of `TestLimiter`: last at 2 s, value 2, capacity 5,
asked at 1.5 s with the amount 3. -/
theorem backward_as_zero_witness :
    ((Limiter.mk 2 5 2000000000 2).val ≤ (Limiter.mk 2 5 2000000000 2).cap →
      (Limiter.mk 2 5 2000000000 2).Value 1500000000
        = (Limiter.mk 2 5 2000000000 2).Value (Limiter.mk 2 5 2000000000 2).last ∧
      (Limiter.mk 2 5 2000000000 2).Have 1500000000 3
        = (Limiter.mk 2 5 2000000000 2).Have (Limiter.mk 2 5 2000000000 2).last 3 ∧
      (Limiter.mk 2 5 2000000000 2).Take 1500000000 3
        = (Limiter.mk 2 5 2000000000 2).Take (Limiter.mk 2 5 2000000000 2).last 3 ∧
      (Limiter.mk 2 5 2000000000 2).Borrow 1500000000 3
        = (Limiter.mk 2 5 2000000000 2).Borrow (Limiter.mk 2 5 2000000000 2).last 3) ∧
    ((Limiter.mk 2 5 2000000000 2).val + 3 ≤ (Limiter.mk 2 5 2000000000 2).cap →
      (Limiter.mk 2 5 2000000000 2).Return 1500000000 3
        = (Limiter.mk 2 5 2000000000 2).Return (Limiter.mk 2 5 2000000000 2).last 3) :=
  backward_as_zero (Limiter.mk 2 5 2000000000 2) 1500000000 3 (by decide)

/-- C9 as stated fails: `Set` with a timestamp earlier than `last` moves `last` back. -/
theorem last_monotone_counterexample :
    ¬ (∀ (l : Limiter) (now : Time) (r c v : ℚ),
        l.last ≤ (l.Update now r c).last ∧ l.last ≤ (l.Have now v).2.last ∧
        l.last ≤ (l.Take now v).2.last ∧ l.last ≤ (l.Borrow now v).2.last ∧
        l.last ≤ (l.Return now v).last ∧ l.last ≤ (l.Value now).2.last ∧
        l.last ≤ (l.Set now v).2.last) := by
  intro h
  have h1 := (h (Limiter.mk 2 5 10 5) 5 2 5 1).2.2.2.2.2.2
  simp only [Limiter.Set] at h1
  exact absurd h1 (by decide)

/-- C9, amended: after each of `Update`, `Have`, `Take`, `Borrow`, `Return` and `Value`,
called with any timestamp and any arguments, `last` is the later of the old `last` and
`now`, hence not earlier than before; `Set(now, v)` sets `last` to `now`, so that after it
`last` is not earlier than before exactly when `now` is not earlier than the old `last`.
(`Rate` and `Capacity` only read the state.) -/
theorem last_monotone (l : Limiter) (now : Time) (r c v : ℚ) :
    ((l.Update now r c).last = max l.last now ∧ l.last ≤ (l.Update now r c).last) ∧
    ((l.Have now v).2.last = max l.last now ∧ l.last ≤ (l.Have now v).2.last) ∧
    ((l.Take now v).2.last = max l.last now ∧ l.last ≤ (l.Take now v).2.last) ∧
    ((l.Borrow now v).2.last = max l.last now ∧ l.last ≤ (l.Borrow now v).2.last) ∧
    ((l.Return now v).last = max l.last now ∧ l.last ≤ (l.Return now v).last) ∧
    ((l.Value now).2.last = max l.last now ∧ l.last ≤ (l.Value now).2.last) ∧
    (l.Set now v).2.last = now ∧
    (l.last ≤ (l.Set now v).2.last ↔ l.last ≤ now) := by
  have hU : (l.Update now r c).last = max l.last now := advance_last l now
  have hH : (l.Have now v).2.last = max l.last now := advance_last l now
  have hT : (l.Take now v).2.last = max l.last now := by
    simp only [Limiter.Take]
    split_ifs
    · exact advance_last l now
    · exact advance_last l now
  have hB : (l.Borrow now v).2.last = max l.last now := by
    simp only [Limiter.Borrow]
    split_ifs
    · exact advance_last l now
    · exact advance_last l now
  have hR : (l.Return now v).last = max l.last now :=
    advance_last { l with val := l.val + v } now
  have hV : (l.Value now).2.last = max l.last now := advance_last l now
  refine ⟨⟨hU, ?_⟩, ⟨hH, ?_⟩, ⟨hT, ?_⟩, ⟨hB, ?_⟩, ⟨hR, ?_⟩, ⟨hV, ?_⟩, rfl, Iff.rfl⟩
  · rw [hU]; exact le_max_left _ _
  · rw [hH]; exact le_max_left _ _
  · rw [hT]; exact le_max_left _ _
  · rw [hB]; exact le_max_left _ _
  · rw [hR]; exact le_max_left _ _
  · rw [hV]; exact le_max_left _ _

/-- C10 at the failing input: `NewLimiter(10, 2, 5, WithValue(7))` holds 7 tokens, above
the capacity 5, with `last` at 10 ns. At the earlier time 5 ns the pre-borrow value is 7,
`Borrow(5, 1)` leaves 6 and `Return(5, 1)` leaves 7: the value is not clamped to
`min(5, 7) = 5`, although 6 + 1 is above the capacity. -/
theorem borrow_return_not_clamped :
    ((NewLimiter 10 2 5 [WithValue 7]).Value 5).1 = 7 ∧
      (NewLimiter 10 2 5 [WithValue 7]).Borrow 5 1 = (0, Limiter.mk 2 5 10 6) ∧
      (Limiter.mk 2 5 10 6).Return 5 1 = Limiter.mk 2 5 10 7 ∧
      min (NewLimiter 10 2 5 [WithValue 7]).Capacity
        ((NewLimiter 10 2 5 [WithValue 7]).Value 5).1 = 5 ∧
      (((NewLimiter 10 2 5 [WithValue 7]).Borrow 5 1).2.Return 5 1).val ≠
        min (NewLimiter 10 2 5 [WithValue 7]).Capacity
          ((NewLimiter 10 2 5 [WithValue 7]).Value 5).1 := by
  have hN : NewLimiter 10 2 5 [WithValue 7] = Limiter.mk 2 5 10 7 := by
    simp [NewLimiter, WithValue, OptionFunc.apply, Limiter.Set]
  have hB : (Limiter.mk 2 5 10 7).Borrow 5 1 = (0, Limiter.mk 2 5 10 6) := by
    norm_num [Limiter.Borrow, advance_mk]
  have hR : (Limiter.mk 2 5 10 6).Return 5 1 = Limiter.mk 2 5 10 7 := by
    norm_num [Limiter.Return, advance_mk]
  have hV : ((Limiter.mk 2 5 10 7).Value 5).1 = 7 := by
    norm_num [Limiter.Value, advance_mk]
  rw [hN, hB, hV]
  refine ⟨rfl, rfl, hR, ?_, ?_⟩
  · norm_num [Limiter.Capacity]
  · show ((Limiter.mk 2 5 10 6).Return 5 1).val ≠ _
    rw [hR]
    norm_num [Limiter.Capacity]

/-- At a time not earlier than `last`, with no rounding in play (amounts 4 and 4 on the
value 1), `Borrow` then `Return` restores the value: the step of `TestLimiter`. -/
theorem borrow_return_example (now : Time) :
    (((Limiter.mk 3 6 now 1).Borrow now 4).2.Return now 4).val = 1 := by
  have hB : ((Limiter.mk 3 6 now 1).Borrow now 4).2 = Limiter.mk 3 6 now (-3) := by
    norm_num [Limiter.Borrow, advance_mk, seconds_self]
  rw [hB]
  norm_num [Limiter.Return, advance_mk, seconds_self]

/-- C11 at the failing input: a full bucket of capacity 5 with `last` at 10 ns;
`Return(9, 1)` leaves the stored value 6, above the capacity, although the stored value
plus the returned amount is above the capacity. -/
theorem return_not_truncated :
    (NewLimiter 10 2 5 []).val + 1 > (NewLimiter 10 2 5 []).Capacity ∧
      (NewLimiter 10 2 5 []).Return 9 1 = Limiter.mk 2 5 10 6 ∧
      ((NewLimiter 10 2 5 []).Return 9 1).val > ((NewLimiter 10 2 5 []).Return 9 1).Capacity := by
  have hR : (NewLimiter 10 2 5 []).Return 9 1 = Limiter.mk 2 5 10 6 := by
    norm_num [NewLimiter, Limiter.Return, advance_mk, seconds_self, Duration.Seconds, Time.Sub,
    minDuration, maxDuration]
  refine ⟨by norm_num [NewLimiter, Limiter.Capacity], hR, ?_⟩
  rw [hR]
  norm_num [Limiter.Capacity]

/-- With a timestamp not earlier than `last` and `rate ≥ 0`, `Return` truncates at the
capacity: the stored value after it is at most the capacity, and is the capacity when
the stored value plus the returned amount is above it. -/
theorem return_truncates_forward (l : Limiter) (now : Time) (v : ℚ) (hr : 0 ≤ l.rate)
    (hn : l.last ≤ now) :
    (l.Return now v).val ≤ l.Capacity ∧
      (l.val + v > l.Capacity → (l.Return now v).val = l.Capacity) := by
  have hle : ({ l with val := l.val + v } : Limiter).last ≤ now := hn
  simp only [Limiter.Return, Limiter.Capacity]
  rw [advance_of_le _ now hle]
  refine ⟨min_le_left _ _, ?_⟩
  intro hgt
  have hs := mul_nonneg hr (seconds_nonneg hn)
  apply min_eq_left
  show l.cap ≤ l.val + v + l.rate * Duration.Seconds (Time.Sub now l.last)
  linarith

/-- C12 as stated fails: with the capacity 5, `Set(0, 7)` stores 7, but the following
`Value(0)` truncates and returns 5. -/
theorem set_value_counterexample :
    ¬ (∀ (l : Limiter) (now : Time) (v : ℚ),
        (l.Set now v).1 = l.val ∧ ((l.Set now v).2.Value now).1 = v) := by
  intro h
  have h1 := (h (Limiter.mk 2 5 0 5) 0 7).2
  norm_num [Limiter.Set, Limiter.Value, advance_mk, seconds_self, Duration.Seconds, Time.Sub,
    minDuration, maxDuration] at h1

/-- C12, amended: `Set(now, v)` returns exactly the stored value from before the call and
stores exactly `v` with `last = now`, without clamping (rate and capacity are kept); an
immediately following `Value(now)` returns `min(Capacity(), v)`, which is exactly `v` if
and only if `v` is at most the capacity. -/
theorem set_value (l : Limiter) (now : Time) (v : ℚ) :
    (l.Set now v).1 = l.val ∧
      (l.Set now v).2 = { l with val := v, last := now } ∧
      ((l.Set now v).2.Value now).1 = min l.Capacity v ∧
      (((l.Set now v).2.Value now).1 = v ↔ v ≤ l.Capacity) := by
  have hV : ((l.Set now v).2.Value now).1 = min l.Capacity v := by
    simp only [Limiter.Set, Limiter.Value, Limiter.Capacity]
    rw [advance_of_le _ now (le_refl _)]
    simp only [seconds_self, mul_zero, add_zero]
  refine ⟨rfl, rfl, hV, ?_⟩
  rw [hV]
  exact min_eq_right_iff

/-- The step of `TestLimiter`: value -6, capacity 6, `Set(now, 1)` returns -6 and the
following `Value(now)` returns 1. -/
theorem set_value_example (now : Time) :
    ((Limiter.mk 3 6 now (-6)).Set now 1).1 = -6 ∧
      (((Limiter.mk 3 6 now (-6)).Set now 1).2.Value now).1 = 1 := by
  norm_num [Limiter.Set, Limiter.Value, advance_mk, seconds_self, Duration.Seconds, Time.Sub,
    minDuration, maxDuration]

/-- C13 as stated fails: after `Borrow` has driven the value to -6, `Have(now, -1)`
returns false. -/
theorem have_negative_counterexample :
    ¬ (∀ (l : Limiter) (now : Time) (a : ℚ), a < 0 → (l.Have now a).1 = true) := by
  intro h
  have h1 := h ((NewLimiter 0 3 6 [WithValue 2]).Borrow 0 8).2 0 (-1) (by norm_num)
  have hB : ((NewLimiter 0 3 6 [WithValue 2]).Borrow 0 8).2 = Limiter.mk 3 6 0 (-6) := by
    norm_num [NewLimiter, WithValue, OptionFunc.apply, Limiter.Set, Limiter.Borrow, advance_mk, seconds_self, Duration.Seconds, Time.Sub,
    minDuration, maxDuration]
  rw [hB] at h1
  norm_num [Limiter.Have, advance_mk, seconds_self, Duration.Seconds, Time.Sub,
    minDuration, maxDuration] at h1

/-- C13, amended: for an amount `< 0`, `Have(now, amount)` returns true whenever the
number `Value(now)` returns is not negative; that is so for every state with `rate ≥ 0`,
`capacity ≥ 0` and a stored value `≥ 0`. -/
theorem have_negative (l : Limiter) (now : Time) (a : ℚ) (ha : a < 0) :
    (0 ≤ (l.Value now).1 → (l.Have now a).1 = true) ∧
      (0 ≤ l.rate → 0 ≤ l.cap → 0 ≤ l.val → (l.Have now a).1 = true) := by
  have h1 : 0 ≤ (l.Value now).1 → (l.Have now a).1 = true := by
    intro hv
    have hv' : 0 ≤ (l.advance now).val := hv
    simp only [Limiter.Have, decide_eq_true_eq]
    linarith
  refine ⟨h1, ?_⟩
  intro hr hc hv
  apply h1
  exact advance_val_nonneg l now hr hc hv

/-- C13 (amended) at a full bucket of rate 2 and capacity 5. -/
theorem have_negative_witness :
    ((0 : ℚ) ≤ ((NewLimiter 0 2 5 []).Value 0).1 → ((NewLimiter 0 2 5 []).Have 0 (-1)).1 = true) ∧
      ((0 : ℚ) ≤ (NewLimiter 0 2 5 []).rate → (0 : ℚ) ≤ (NewLimiter 0 2 5 []).cap →
        (0 : ℚ) ≤ (NewLimiter 0 2 5 []).val → ((NewLimiter 0 2 5 []).Have 0 (-1)).1 = true) :=
  have_negative (NewLimiter 0 2 5 []) 0 (-1) (by norm_num)

/-- C14: after `Update(now, r, c)`, `Rate() = r` and `Capacity() = c`, while value and
last are exactly those that `advance(now)` produces under the old rate and the old
capacity: the value is neither rescaled nor clamped to `c` by the call. Scenario: value 5,
capacity 5, `Update(now, 3, 6)` leaves `Value(now) = 5`. -/
theorem update_post :
    (∀ (l : Limiter) (now : Time) (r c : ℚ),
      (l.Update now r c).Rate = r ∧ (l.Update now r c).Capacity = c ∧
      (l.Update now r c).val = (l.advance now).val ∧
      (l.Update now r c).last = (l.advance now).last) ∧
    (∀ now : Time,
      (Limiter.mk 2 5 now 5).Update now 3 6 = Limiter.mk 3 6 now 5 ∧
      (((Limiter.mk 2 5 now 5).Update now 3 6).Value now).1 = 5) := by
  refine ⟨fun l now r c => ⟨rfl, rfl, rfl, rfl⟩, ?_⟩
  intro now
  norm_num [Limiter.Update, Limiter.Value, advance_mk, seconds_self, Duration.Seconds, Time.Sub,
    minDuration, maxDuration]

/-- `Update` does not clamp to the new capacity: value 5, new capacity 3, the stored value
stays 5. -/
theorem update_no_clamp_example (now : Time) :
    ((Limiter.mk 2 5 now 5).Update now 2 3).val = 5 := by
  norm_num [Limiter.Update, advance_mk, seconds_self, Duration.Seconds, Time.Sub,
    minDuration, maxDuration]

theorem foldl_withValue (now : Time) (vs : List ℚ) :
    ∀ (l : Limiter) (h : vs ≠ []),
      (vs.map WithValue).foldl (fun l o => o.apply l now) l
        = { l with val := vs.getLast h, last := now } := by
  induction vs with
  | nil => intro l h; exact absurd rfl h
  | cons v vs ih =>
    intro l h
    cases vs with
    | nil => rfl
    | cons w ws =>
      have := ih (OptionFunc.apply (WithValue v) l now) (List.cons_ne_nil w ws)
      rw [List.map_cons, List.foldl_cons, this, List.getLast_cons (List.cons_ne_nil w ws)]
      rfl

/-- C15: `NewLimiter(now, rate, cap)` with no options yields a full bucket: value `cap`,
last `now`, `Rate() = rate`, `Capacity() = cap`. Options are applied in order after these
defaults: the last option acts on the limiter the options before it produce, and with
the options `WithValue(v1), ..., WithValue(vn)`, `n ≥ 1`, the stored value is `vn`, last
is `now`, rate and capacity are unchanged. -/
theorem newLimiter_post (now : Time) (rate cap : ℚ) :
    NewLimiter now rate cap [] = Limiter.mk rate cap now cap ∧
      (NewLimiter now rate cap []).Rate = rate ∧
      (NewLimiter now rate cap []).Capacity = cap ∧
      (∀ (opts : List OptionFunc) (o : OptionFunc),
        NewLimiter now rate cap (opts ++ [o]) = o.apply (NewLimiter now rate cap opts) now) ∧
      (∀ (vs : List ℚ) (h : vs ≠ []),
        NewLimiter now rate cap (vs.map WithValue) = Limiter.mk rate cap now (vs.getLast h)) := by
  refine ⟨rfl, rfl, rfl, ?_, ?_⟩
  · intro opts o
    simp only [NewLimiter, List.foldl_append, List.foldl_cons, List.foldl_nil]
  · intro vs h
    simp only [NewLimiter]
    rw [foldl_withValue now vs _ h]

/-- C15 with the options `WithValue(1)`, `WithValue(7)`, `WithValue(3)`. -/
theorem newLimiter_post_witness :
    NewLimiter 0 2 5 ([1, 7, 3].map WithValue)
      = Limiter.mk 2 5 0 (([1, 7, 3] : List ℚ).getLast (by simp)) :=
  (newLimiter_post 0 2 5).2.2.2.2 [1, 7, 3] (by simp)

/-- C16: for every limiter state, whatever the stored value and the rate, and every
timestamp `now` not earlier than `last`, the stored value after `advance(now)` is at most
the capacity, hence `Value(now) ≤ Capacity()` (the capacity read before or after the call). -/
theorem accrual_clamps (l : Limiter) (now : Time) (h : l.last ≤ now) :
    (l.advance now).val ≤ (l.advance now).cap ∧
      (l.Value now).1 ≤ l.Capacity ∧ (l.Value now).1 ≤ (l.Value now).2.Capacity := by
  have h1 : (l.advance now).val ≤ l.cap := by
    rw [advance_of_le l now h]
    exact min_le_left _ _
  have h2 : (l.advance now).cap = l.cap := advance_cap l now
  refine ⟨by rw [h2]; exact h1, h1, ?_⟩
  show (l.advance now).val ≤ (l.advance now).cap
  rw [h2]; exact h1

/-- C16 at the step of `TestLimiter` from 2 s to 6 s, and at a value set above the
capacity. -/
theorem accrual_clamps_witness :
    ((Limiter.mk 2 5 2000000000 7).advance 6000000000).val
        ≤ ((Limiter.mk 2 5 2000000000 7).advance 6000000000).cap ∧
      ((Limiter.mk 2 5 2000000000 7).Value 6000000000).1
        ≤ (Limiter.mk 2 5 2000000000 7).Capacity ∧
      ((Limiter.mk 2 5 2000000000 7).Value 6000000000).1
        ≤ ((Limiter.mk 2 5 2000000000 7).Value 6000000000).2.Capacity :=
  accrual_clamps (Limiter.mk 2 5 2000000000 7) 6000000000 (by decide)

/-- C17: from a state with `rate ≥ 0`, `capacity ≥ 0` and a stored value `≥ 0`, at every
timestamp, each operation other than `Borrow` leaves the stored value `≥ 0`: `Value`,
`Have`, `Take` with an amount of any sign, `Update` with a new rate and a new capacity
`≥ 0` (which also keeps rate and capacity `≥ 0`), and `Return` and `Set` with an amount
`≥ 0`. -/
theorem value_nonneg (l : Limiter) (now : Time) (a r c : ℚ) (hr : 0 ≤ l.rate)
    (hc : 0 ≤ l.cap) (hv : 0 ≤ l.val) :
    0 ≤ (l.Value now).2.val ∧ 0 ≤ (l.Have now a).2.val ∧ 0 ≤ (l.Take now a).2.val ∧
      (0 ≤ r → 0 ≤ c → 0 ≤ (l.Update now r c).val) ∧
      (0 ≤ a → 0 ≤ (l.Return now a).val) ∧
      (0 ≤ a → 0 ≤ (l.Set now a).2.val) := by
  have h0 := advance_val_nonneg l now hr hc hv
  refine ⟨h0, h0, ?_, fun _ _ => h0, ?_, fun ha => ha⟩
  · simp only [Limiter.Take]
    split_ifs with hgt
    · exact h0
    · show 0 ≤ (l.advance now).val - a
      linarith [not_lt.mp hgt]
  · intro ha
    exact advance_val_nonneg { l with val := l.val + a } now hr hc (add_nonneg hv ha)

/-- C17 at the state of `TestLimiter` after one second: value 0, rate 2, capacity 5. -/
theorem value_nonneg_witness :
    (0 : ℚ) ≤ ((Limiter.mk 2 5 1000000000 0).Value 2000000000).2.val ∧
      (0 : ℚ) ≤ ((Limiter.mk 2 5 1000000000 0).Have 2000000000 3).2.val ∧
      (0 : ℚ) ≤ ((Limiter.mk 2 5 1000000000 0).Take 2000000000 3).2.val ∧
      ((0 : ℚ) ≤ 3 → (0 : ℚ) ≤ 6 →
        0 ≤ ((Limiter.mk 2 5 1000000000 0).Update 2000000000 3 6).val) ∧
      ((0 : ℚ) ≤ 3 → 0 ≤ ((Limiter.mk 2 5 1000000000 0).Return 2000000000 3).val) ∧
      ((0 : ℚ) ≤ 3 → 0 ≤ ((Limiter.mk 2 5 1000000000 0).Set 2000000000 3).2.val) :=
  value_nonneg (Limiter.mk 2 5 1000000000 0) 2000000000 3 3 6
    (by norm_num) (by norm_num) (by norm_num)

/-- `Borrow` does make the value negative: the last step of `TestLimiterBorrow`. -/
theorem borrow_negative_example (now : Time) :
    ((Limiter.mk 2 6 now 2).Borrow now 4).2.val = -2 := by
  norm_num [Limiter.Borrow, advance_mk, seconds_self, Duration.Seconds, Time.Sub,
    minDuration, maxDuration]

/-- C18: `Have(now, amount)` returns true exactly when `amount ≤` the number that
`Value(now)` returns on the same prior state, and it leaves the limiter in exactly the
state that `Value(now)` leaves (value, last, rate, capacity), the state after
`advance(now)`. -/
theorem have_pure (l : Limiter) (now : Time) (a : ℚ) :
    ((l.Have now a).1 = true ↔ a ≤ (l.Value now).1) ∧
      (l.Have now a).2 = (l.Value now).2 ∧ (l.Have now a).2 = l.advance now := by
  refine ⟨?_, rfl, rfl⟩
  simp only [Limiter.Have, Limiter.Value, decide_eq_true_eq]

/-- C19: `Have(now, amount)` immediately followed by `Take(now, amount)` return the same
boolean, and that `Take` returns the same boolean and leaves the same state as
`Take(now, amount)` called on the original state without the preceding `Have`. -/
theorem have_predicts_take (l : Limiter) (now : Time) (a : ℚ) :
    (l.Have now a).1 = ((l.Have now a).2.Take now a).1 ∧
      (l.Have now a).2.Take now a = l.Take now a := by
  have hT : (l.Have now a).2.Take now a = l.Take now a := by
    simp only [Limiter.Have, Limiter.Take, advance_advance]
  refine ⟨?_, hT⟩
  rw [hT]
  simp only [Limiter.Have, Limiter.Take]
  by_cases hgt : a > (l.advance now).val
  · simp only [hgt, if_true, decide_eq_false_iff_not, not_le]
  · simp only [hgt, if_false, decide_eq_true_eq]
    exact not_lt.mp hgt

/-- The first steps of `TestLimiter`: `Have` and `Take` agree, true for 4 on a full
bucket of 5 and false for 3 on a bucket holding 2. -/
theorem have_predicts_take_example :
    ((NewLimiter 0 2 5 []).Have 0 4).1 = true ∧
      (((NewLimiter 0 2 5 []).Have 0 4).2.Take 0 4).1 = true ∧
      ((Limiter.mk 2 5 1000000000 0).Have 2000000000 3).1 = false ∧
      (((Limiter.mk 2 5 1000000000 0).Have 2000000000 3).2.Take 2000000000 3).1 = false := by
  norm_num [NewLimiter, Limiter.Have, Limiter.Take, advance_mk, seconds_self, Duration.Seconds, Time.Sub,
    minDuration, maxDuration]

/-- C20 as stated fails: with rate 1, value 0 and `last` at 0, advancing to 5e18 ns and
then to 1e19 ns accrues 5e9 + 5e9 tokens, while advancing directly to 1e19 ns accrues
`maxDuration` seconds' worth, 9223372036.854775807: the difference of the two times does
not fit a `Duration`. -/
theorem observation_neutral_counterexample :
    ¬ (∀ (l : Limiter) (t1 t2 : Time), 0 ≤ l.rate → t1 ≤ t2 →
        (l.advance t1).advance t2 = l.advance t2 ∧
        (l.Value t1).2.Value t2 = l.Value t2 ∧
        (l.Value t2).2.Value t2 = l.Value t2) := by
  intro h
  have h1 := (h (Limiter.mk 1 100000000000 0 0) 5000000000000000000 10000000000000000000
    (by norm_num) (by decide)).1
  have e1 : (Limiter.mk 1 100000000000 0 0).advance 5000000000000000000
      = Limiter.mk 1 100000000000 5000000000000000000 5000000000 := by
    norm_num [advance_mk, Duration.Seconds, Time.Sub, minDuration, maxDuration]
  have e2 : (Limiter.mk 1 100000000000 5000000000000000000 5000000000).advance
      10000000000000000000
      = Limiter.mk 1 100000000000 10000000000000000000 10000000000 := by
    norm_num [advance_mk, Duration.Seconds, Time.Sub, minDuration, maxDuration]
  have e3 : (Limiter.mk 1 100000000000 0 0).advance 10000000000000000000
      = Limiter.mk 1 100000000000 10000000000000000000
          (9223372036854775807 / 1000000000) := by
    norm_num [advance_mk, Duration.Seconds, Time.Sub, minDuration, maxDuration]
  rw [e1, e2, e3] at h1
  have h2 := congrArg Limiter.val h1
  norm_num at h2

/-- C20, amended: for `t1 ≤ t2`, advancing to `t1` and then to `t2` leaves exactly the
same state (value, last, rate, capacity) and returns the same final number as advancing
directly to `t2`, when `t1` is earlier than `last` (the first step does nothing), when
`t1 = t2`, or when `rate ≥ 0`, `t1` is not earlier than `last` and the bucket is full at
`t1` (`Value(t1) = Capacity()`); in particular `Value(t2)` called twice returns the same
number and the second call changes nothing. -/
theorem observation_neutral (l : Limiter) (t1 t2 : Time) (h : t1 ≤ t2) :
    (t1 < l.last ∨ t1 = t2 ∨ (0 ≤ l.rate ∧ l.last ≤ t1 ∧ (l.Value t1).1 = l.Capacity) →
      (l.advance t1).advance t2 = l.advance t2 ∧
      (l.Value t1).2.Value t2 = l.Value t2) ∧
    (l.Value t2).2.Value t2 = l.Value t2 := by
  have hA : t1 < l.last ∨ t1 = t2 ∨ (0 ≤ l.rate ∧ l.last ≤ t1 ∧ (l.Value t1).1 = l.Capacity) →
      (l.advance t1).advance t2 = l.advance t2 := by
    rintro (h1 | rfl | ⟨hr, h1, hfull⟩)
    · rw [advance_of_lt l t1 h1]
    · exact advance_advance l t1
    · have hfull' : (l.advance t1).val = l.cap := hfull
      have h2 : l.last ≤ t2 := le_trans h1 h
      have hlast : (l.advance t1).last = t1 := by rw [advance_last, max_eq_right h1]
      have hl : (l.advance t1).last ≤ t2 := by rw [hlast]; exact h
      have hge : l.cap ≤ l.val + l.rate * Duration.Seconds (Time.Sub t1 l.last) := by
        rw [advance_of_le l t1 h1] at hfull'
        exact min_eq_left_iff.mp hfull'
      have hmono := mul_le_mul_of_nonneg_left (seconds_mono l.last h) hr
      have hs2 := mul_nonneg hr (seconds_nonneg hl)
      rw [advance_of_le (l.advance t1) t2 hl, advance_of_le l t2 h2]
      simp only [advance_cap, advance_rate, hfull']
      rw [min_eq_left (by linarith), min_eq_left (by linarith)]
  refine ⟨fun hc => ⟨hA hc, ?_⟩, ?_⟩
  · simp only [Limiter.Value, hA hc]
  · simp only [Limiter.Value, advance_advance]

/-- C20 (amended) at the steps of `TestLimiter`: a bucket of capacity 5 that is full at
6 s, `Value` at 6 s and then at 7 s against `Value` at 7 s alone. -/
theorem observation_neutral_witness :
    (((Limiter.mk 2 5 2000000000 2).advance 6000000000).advance 7000000000
          = (Limiter.mk 2 5 2000000000 2).advance 7000000000 ∧
        ((Limiter.mk 2 5 2000000000 2).Value 6000000000).2.Value 7000000000
          = (Limiter.mk 2 5 2000000000 2).Value 7000000000) ∧
      ((Limiter.mk 2 5 2000000000 2).Value 7000000000).2.Value 7000000000
        = (Limiter.mk 2 5 2000000000 2).Value 7000000000 :=
  ⟨(observation_neutral (Limiter.mk 2 5 2000000000 2) 6000000000 7000000000 (by decide)).1
      (Or.inr (Or.inr ⟨by norm_num, by decide,
        by norm_num [Limiter.Value, Limiter.Capacity, advance_mk, Duration.Seconds, Time.Sub,
          minDuration, maxDuration]⟩)),
    (observation_neutral (Limiter.mk 2 5 2000000000 2) 6000000000 7000000000 (by decide)).2⟩

end Rate
